import Mathlib

/-!
Shallow embedding of the computation core of `src/Backend.py`
(a FastAPI service computing statistics of biological sequence files).

Modelling conventions:
* Python strings are `List Char`; bytes are `List Nat`.
* Python floats are modelled as exact rationals (`ℚ`); Python's builtin
  `round(x, 2)` is round-half-to-even at two decimals on the rational value.
* Fallible Python code (raised exceptions) is `Except Err`.
* The external collaborators that are not part of this repository
  (Biopython's record parsers, the gzip/bz2 modules) are either modelled
  from the spec (marked `Modelled from the spec:`) or taken as explicit
  function parameters constrained by the spec's contract.
-/

set_option maxHeartbeats 1000000

namespace BioApp

instance {ε α : Type} [DecidableEq ε] [DecidableEq α] : DecidableEq (Except ε α) := fun a b =>
  match a, b with
  | .ok x, .ok y => if h : x = y then isTrue (by rw [h]) else isFalse (by simp [h])
  | .error x, .error y => if h : x = y then isTrue (by rw [h]) else isFalse (by simp [h])
  | .ok _, .error _ => isFalse (by simp)
  | .error _, .ok _ => isFalse (by simp)

/-- Error kinds of the processing core (spec section 7). -/
inductive Err where
  | unsupportedFormat
  | decodeError
  | decompressionError
  | invalidMode
  | malformedFastqRecord
  | processingFailure
deriving DecidableEq

/-- Compression tags returned by `detect_compression`. -/
inductive Compression where
  | none
  | gzip
  | bzip2
deriving DecidableEq

/-- Format tags returned by `detect_file_format`. -/
inductive Format where
  | fasta
  | fastq
  | genbank
  | embl
deriving DecidableEq

/-- Round-half-to-even of a rational to an integer: the rounding of Python's
builtin `round` (floats modelled as exact rationals). -/
def round_half_even (q : ℚ) : ℤ :=
  let f : ℤ := Rat.floor q
  if q - (f : ℚ) < 1/2 then f
  else if 1/2 < q - (f : ℚ) then f + 1
  else if f % 2 = 0 then f else f + 1

/-- Python's `round(x, 2)`. -/
def round2 (q : ℚ) : ℚ := ((round_half_even (q * 100) : ℤ) : ℚ) / 100

/-- Python `str.lower()` (ASCII, which covers filenames and residue data). -/
def lowerStr (s : List Char) : List Char := s.map Char.toLower

/-- One step of the counting loop of `calculate_gc_content`
(src/Backend.py lines 18-23); the pair is (gc count, canonical count). -/
def gcStep (p : Nat × Nat) (b : Char) : Nat × Nat :=
  if b = ('G') ∨ b = ('C') then (p.1 + 1, p.2 + 1)
  else if b = ('A') ∨ b = ('T') then (p.1, p.2 + 1)
  else p

/-- The counting loop of `calculate_gc_content` (src/Backend.py lines 14-23):
the sequence is upper-cased, then scanned once. -/
def gc_counts (seq : List Char) : Nat × Nat :=
  (seq.map Char.toUpper).foldl gcStep (0, 0)

def rawMode : String := "raw"

def canonicalMode : String := "canonical"

/-- Shallow embedding of `calculate_gc_content` (src/Backend.py lines 12-35). -/
def calculate_gc_content (seq : List Char) (mode : String) : Except Err ℚ :=
  let gc := (gc_counts seq).1
  let canonical := (gc_counts seq).2
  if mode = rawMode then
    if seq.length = 0 then .ok 0
    else .ok (round2 (((gc : ℚ) / (seq.length : ℚ)) * 100))
  else if mode = canonicalMode then
    if canonical = 0 then .ok 0
    else .ok (round2 (((gc : ℚ) / (canonical : ℚ)) * 100))
  else .error Err.invalidMode

/-- Count of G/C characters after case-normalisation (the claims' `g`). -/
def countGC : List Char → Nat
  | [] => 0
  | c :: rest => (if c.toUpper = ('G') ∨ c.toUpper = ('C') then 1 else 0) + countGC rest

/-- Count of A/T/G/C characters after case-normalisation (the canonical-base
count of the claims). -/
def countCanonical : List Char → Nat
  | [] => 0
  | c :: rest =>
    (if c.toUpper = ('A') ∨ c.toUpper = ('T') ∨ c.toUpper = ('G') ∨ c.toUpper = ('C')
     then 1 else 0) + countCanonical rest

/-- Value of `calculate_gc_content` in raw mode (total helper; the raw-mode
call sites in the source can never reach the invalid-mode error). -/
def gcRaw (seq : List Char) : ℚ :=
  if seq.length = 0 then 0
  else round2 ((((gc_counts seq).1 : ℚ) / (seq.length : ℚ)) * 100)

/-- Value of `calculate_gc_content` in canonical mode. -/
def gcCanonicalVal (seq : List Char) : ℚ :=
  if (gc_counts seq).2 = 0 then 0
  else round2 ((((gc_counts seq).1 : ℚ) / (((gc_counts seq).2 : ℚ))) * 100)

/-- The value returned by `calculate_gc_content` for a valid mode. -/
def gcValue (seq : List Char) (mode : String) : ℚ :=
  if mode = rawMode then gcRaw seq else gcCanonicalVal seq

def gzExt : List Char := (".gz").data

def gzipExt : List Char := (".gzip").data

def bz2Ext : List Char := (".bz2").data

def bzip2Ext : List Char := (".bzip2").data

def faExt : List Char := (".fa").data

def fastaExt : List Char := (".fasta").data

def fnaExt : List Char := (".fna").data

def fqExt : List Char := (".fq").data

def fastqExt : List Char := (".fastq").data

def gbExt : List Char := (".gb").data

def gbkExt : List Char := (".gbk").data

def genbankExt : List Char := (".genbank").data

def emblExt : List Char := (".embl").data

/-- Shallow embedding of `detect_compression` (src/Backend.py lines 38-47). -/
def detect_compression (filename : List Char) : Compression :=
  let fl := lowerStr filename
  if gzExt.isSuffixOf fl || gzipExt.isSuffixOf fl then Compression.gzip
  else if bz2Ext.isSuffixOf fl || bzip2Ext.isSuffixOf fl then Compression.bzip2
  else Compression.none

/-- One iteration of the compression-extension stripping loop of
`detect_file_format` (src/Backend.py lines 55-57). -/
def stripExtOnce (name ext : List Char) : List Char :=
  if ext.isSuffixOf name then name.take (name.length - ext.length) else name

/-- The compression-extension stripping loop of `detect_file_format`
(src/Backend.py lines 55-57): the four extensions are tried in order and each
matching one is removed from the progressively stripped name. -/
def stripCompression (name : List Char) : List Char :=
  [gzExt, gzipExt, bz2Ext, bzip2Ext].foldl stripExtOnce name

/-- The biological-format suffix match of `detect_file_format`
(src/Backend.py lines 60-69). -/
def formatOfName (name : List Char) : Except Err Format :=
  if faExt.isSuffixOf name || fastaExt.isSuffixOf name || fnaExt.isSuffixOf name then
    .ok Format.fasta
  else if fqExt.isSuffixOf name || fastqExt.isSuffixOf name then
    .ok Format.fastq
  else if gbExt.isSuffixOf name || gbkExt.isSuffixOf name || genbankExt.isSuffixOf name then
    .ok Format.genbank
  else if emblExt.isSuffixOf name then
    .ok Format.embl
  else .error Err.unsupportedFormat

/-- Shallow embedding of `detect_file_format` (src/Backend.py lines 50-69). -/
def detect_file_format (filename : List Char) : Except Err Format :=
  formatOfName (stripCompression (lowerStr filename))

/-- Claim-side single strip, following the claim's words: remove the (at most
one) matched compression suffix from the already lower-cased name. -/
def stripCompressionOnceClaim (name : List Char) : List Char :=
  if gzExt.isSuffixOf name then name.take (name.length - gzExt.length)
  else if gzipExt.isSuffixOf name then name.take (name.length - gzipExt.length)
  else if bz2Ext.isSuffixOf name then name.take (name.length - bz2Ext.length)
  else if bzip2Ext.isSuffixOf name then name.take (name.length - bzip2Ext.length)
  else name

/-- Claim-side format detector, following the claim's words: first strip a
(single) matched compression suffix from the lower-cased name, then map the
remaining suffix. -/
def detect_file_format_claim (filename : List Char) : Except Err Format :=
  formatOfName (stripCompressionOnceClaim (lowerStr filename))

/-- Python's `s.split(sep)` for a single-character separator. -/
def splitOnChar (sep : Char) : List Char → List (List Char)
  | [] => [[]]
  | c :: rest =>
    if c = sep then [] :: splitOnChar sep rest
    else
      match splitOnChar sep rest with
      | [] => [[c]]
      | t :: ts => (c :: t) :: ts

/-- Python's `s.split(",")`. -/
def splitOnComma (s : List Char) : List (List Char) := splitOnChar (',') s

/-- Python's `str.strip()`: surrounding whitespace removed. -/
def trimChars (s : List Char) : List Char :=
  ((s.dropWhile (fun c => c.isWhitespace)).reverse.dropWhile (fun c => c.isWhitespace)).reverse

/-- The lines of a text stream: pieces between newline characters, a final
newline terminating (not opening) a line, as in Python file iteration. -/
def linesOf (s : List Char) : List (List Char) :=
  let ps := splitOnChar ('\n') s
  if ps.getLast? = some [] then ps.dropLast else ps

/-- The first whitespace-delimited token of a string, as in Python's
`s.split(None, 1)[0]`; `none` when the string has no token (where the Python
indexing raises `IndexError`). -/
def firstToken (title : List Char) : Option (List Char) :=
  let t := title.dropWhile (fun c => c.isWhitespace)
  if t.isEmpty then Option.none
  else some (t.takeWhile (fun c => !c.isWhitespace))

/-- The first whitespace-delimited token of a title, the empty string when
there is none (total variant of `firstToken` used to state claims). -/
def firstTokD (title : List Char) : List Char := (firstToken title).getD []

/-- Modelled from the spec: Biopython's `FastqGeneralIterator` (imported by
src/Backend.py but not part of this repository), per spec section 4.4: the
lines are consumed in 4-line groups of header (starting with the marker,
which is stripped to give the title), sequence, separator (which must start
with a plus sign) and quality (which must have the sequence's length); an
incomplete trailing group, a separator without the plus sign, a length
mismatch, or a header without its marker is a malformed record. -/
def fastqIter : List (List Char) → Except Err (List (List Char × List Char × List Char))
  | [] => .ok []
  | header :: seqLine :: sepLine :: qualLine :: rest =>
    if header.head? ≠ some ('@') then .error Err.malformedFastqRecord
    else if sepLine.head? ≠ some ('+') then .error Err.malformedFastqRecord
    else if seqLine.length ≠ qualLine.length then .error Err.malformedFastqRecord
    else
      match fastqIter rest with
      | .error e => .error e
      | .ok out => .ok ((header.drop 1, seqLine, qualLine) :: out)
  | _ => .error Err.malformedFastqRecord

/-- One per-record dictionary built by `process_fastq_stream`
(src/Backend.py lines 128-136). -/
structure FastqInfo where
  ID : List Char
  Title : List Char
  Sequence : List Char
  Quality : List Char
  Length : Nat
  GC_content : ℚ
  Avg_quality : ℚ
deriving DecidableEq

/-- The record dictionary of `process_fastq_stream` (src/Backend.py lines
128-136) for one parsed triple and its extracted identifier. -/
def mkFastqInfo (title seqR qual rid : List Char) : FastqInfo :=
  ⟨rid, title, seqR, qual, seqR.length, gcRaw seqR,
   if qual = [] then 0
   else ((qual.foldl (fun a c => a + ((c.toNat : ℤ) - 33)) 0 : ℤ) : ℚ) / (qual.length : ℚ)⟩

/-- The record loop of `process_fastq_stream` (src/Backend.py lines 122-137):
a record is skipped exactly when the wanted-ID set is non-empty and does not
contain the record's identifier (the first whitespace-delimited token of the
title). -/
def process_fastq_records :
    List (List Char × List Char × List Char) → List (List Char) →
      Except Err (List FastqInfo)
  | [], _ => .ok []
  | (title, seqR, qual) :: rest, wanted =>
    match firstToken title with
    | Option.none => .error Err.processingFailure
    | some rid =>
      if wanted ≠ [] ∧ rid ∉ wanted then process_fastq_records rest wanted
      else
        match process_fastq_records rest wanted with
        | .error e => .error e
        | .ok out => .ok (mkFastqInfo title seqR qual rid :: out)

/-- Shallow embedding of `process_fastq_stream` (src/Backend.py lines
110-139): the decoded text is parsed by the FASTQ iterator, an absent
wanted-ID set being replaced by the empty set. -/
def process_fastq_stream (text : List Char) (wanted : Option (List (List Char))) :
    Except Err (List FastqInfo) :=
  match fastqIter (linesOf text) with
  | .error e => .error e
  | .ok triples => process_fastq_records triples (wanted.getD [])

/-- A record of the external record source: identifier, description and
residue sequence (spec section 3). -/
structure SeqRecord where
  rid : List Char
  description : List Char
  seqR : List Char
deriving DecidableEq

/-- One per-record dictionary built by `process_fasta_stream`
(src/Backend.py lines 96-104). -/
structure FastaInfo where
  ID : List Char
  Description : List Char
  Sequence : List Char
  Length : Nat
  GC_content : ℚ
  Last_base : List Char
  First_base : List Char
deriving DecidableEq

/-- The record dictionary of `process_fasta_stream` (src/Backend.py lines
96-104); the first/last residue is read only under the positive-length
guard, and is the empty string otherwise. -/
def mkFastaInfo (r : SeqRecord) : FastaInfo :=
  ⟨r.rid, r.description, r.seqR, r.seqR.length, gcRaw r.seqR,
   if h : 0 < r.seqR.length then [r.seqR.get ⟨r.seqR.length - 1, by omega⟩] else [],
   if h : 0 < r.seqR.length then [r.seqR.get ⟨0, h⟩] else []⟩

/-- Shallow embedding of `process_fasta_stream` (src/Backend.py lines
91-107), over the record list produced by the external record source. -/
def process_fasta_stream (recs : List SeqRecord) : List FastaInfo :=
  recs.map mkFastaInfo

/-- Shallow embedding of `get_text_handle` (src/Backend.py lines 72-88).
The gzip/bzip2 inflaters and the UTF-8 byte decoder are Python-library
collaborators outside this repository, so they are taken as explicit
function parameters; the spec (section 4.2) constrains them where a claim
needs it. -/
def get_text_handle (gz bz : List Nat → Except Err (List Nat))
    (decode : List Nat → Except Err (List Char))
    (content : List Nat) : Compression → Except Err (List Char)
  | Compression.gzip =>
    match gz content with
    | .error e => .error e
    | .ok b => decode b
  | Compression.bzip2 =>
    match bz content with
    | .error e => .error e
    | .ok b => decode b
  | Compression.none => decode content

/-- The response fields of the universal processing endpoint
(src/Backend.py lines 165-172) that the claims are about. -/
structure UniversalResponse where
  format : Format
  compression : Compression
  total_sequences : Nat
  total_bases : Nat
deriving DecidableEq

/-- Shallow embedding of `process_sequences_universal` (src/Backend.py lines
142-177): detect the compression and format, decode the bytes to text, parse
by format, and report the counts; `src_parse` is the external record source
(Bio.SeqIO.parse) used for the non-FASTQ formats. -/
def process_sequences_universal (gz bz : List Nat → Except Err (List Nat))
    (decode : List Nat → Except Err (List Char))
    (src_parse : Format → List Char → Except Err (List SeqRecord))
    (filename : List Char) (content : List Nat) : Except Err UniversalResponse :=
  match detect_file_format filename with
  | .error e => .error e
  | .ok fmt =>
    match get_text_handle gz bz decode content (detect_compression filename) with
    | .error e => .error e
    | .ok text =>
      match fmt with
      | Format.fastq =>
        match process_fastq_stream text Option.none with
        | .error e => .error e
        | .ok rs =>
          .ok (⟨fmt, detect_compression filename, rs.length,
                (rs.map (fun r => r.Length)).sum⟩ : UniversalResponse)
      | _ =>
        match src_parse fmt text with
        | .error e => .error e
        | .ok recs =>
          .ok (⟨fmt, detect_compression filename, (process_fasta_stream recs).length,
                ((process_fasta_stream recs).map (fun r => r.Length)).sum⟩ : UniversalResponse)

/-- The summary statistics of the stats endpoint (src/Backend.py lines
202-210). -/
structure StatsSummary where
  total_sequences : Nat
  total_bases : Nat
  average_length : ℚ
  average_gc_content : ℚ
deriving DecidableEq

/-- One iteration of the accumulation loop of `get_sequence_stats`
(src/Backend.py lines 196-200): the triple is (total_length, total_gc,
count). -/
def statsStep (acc : Nat × ℚ × Nat) (seqR : List Char) : Nat × ℚ × Nat :=
  (acc.1 + seqR.length, acc.2.1 + gcRaw seqR, acc.2.2 + 1)

/-- Shallow embedding of the aggregation of `get_sequence_stats`
(src/Backend.py lines 180-210), over the sequences of the records produced
by the external record source. -/
def get_sequence_stats (seqs : List (List Char)) : StatsSummary :=
  let t := seqs.foldl statsStep (0, 0, 0)
  ⟨t.2.2, t.1,
   if 0 < t.2.2 then round2 ((t.1 : ℚ) / (t.2.2 : ℚ)) else 0,
   if 0 < t.2.2 then round2 (t.2.1 / (t.2.2 : ℚ)) else 0⟩

/-- Python truthiness of the optional wanted-ID set of `filter_fastq`:
`None` and the empty set are falsy. -/
def pyTruthy : Option (List (List Char)) → Bool
  | Option.none => false
  | some l => !l.isEmpty

/-- The wanted-ID set construction of `filter_fastq` (src/Backend.py lines
234-237): `None` stays absent, a falsy (empty) string stays absent, and
otherwise the comma-separated tokens are whitespace-trimmed and collected
into a set (modelled as a deduplicated list). -/
def parse_filter_ids : Option (List Char) → Option (List (List Char))
  | Option.none => Option.none
  | some s =>
    if s.isEmpty then Option.none
    else some (((splitOnComma s).map trimChars).dedup)

/-- The response fields of the FASTQ filter endpoint (src/Backend.py lines
245-252) that the claims are about. -/
structure FilterResponse where
  total_sequences : Nat
  filtered : Bool
  filter_count : Nat
  sequences : List FastqInfo
deriving DecidableEq

/-- The core of `filter_fastq` (src/Backend.py lines 218-252) after format
checks and decoding: build the wanted-ID set from the optional filter
string, process the parsed FASTQ records, and report the counts. -/
def filter_fastq_core (filter_ids : Option (List Char))
    (triples : List (List Char × List Char × List Char)) :
    Except Err FilterResponse :=
  match process_fastq_records triples ((parse_filter_ids filter_ids).getD []) with
  | .error e => .error e
  | .ok out =>
    .ok (⟨out.length, pyTruthy (parse_filter_ids filter_ids),
          if pyTruthy (parse_filter_ids filter_ids)
          then ((parse_filter_ids filter_ids).getD []).length else 0, out⟩ : FilterResponse)

/-- The claim-side filter count: the number of distinct comma-separated
tokens of the filter string after whitespace trimming, 0 when the filter
string is absent or empty. -/
def distinctTokens : Option (List Char) → Nat
  | Option.none => 0
  | some s => if s = [] then 0 else (((splitOnComma s).map trimChars).dedup).length


/-! ## Helper lemmas -/

lemma ratFloor_eq (q : ℚ) : Rat.floor q = ⌊q⌋ := by
  rw [Rat.floor_def', Rat.floor_def]

lemma round_half_even_nonneg (q : ℚ) (h : 0 ≤ q) : 0 ≤ round_half_even q := by
  have hf : (0 : ℤ) ≤ ⌊q⌋ := Int.floor_nonneg.mpr h
  simp only [round_half_even, ratFloor_eq]
  split_ifs <;> omega

lemma round_half_even_le (q : ℚ) (n : ℤ) (h : q ≤ (n : ℚ)) : round_half_even q ≤ n := by
  have hf : ⌊q⌋ ≤ n := by
    have h1 := Int.floor_le_floor h
    simpa using h1
  have hlow : ((⌊q⌋ : ℤ) : ℚ) ≤ q := Int.floor_le q
  simp only [round_half_even, ratFloor_eq]
  split_ifs with h1 h2 h3
  · exact hf
  · have h4 : ((⌊q⌋ : ℤ) : ℚ) < (n : ℚ) := by linarith
    have h5 : ⌊q⌋ < n := by exact_mod_cast h4
    omega
  · exact hf
  · have heq : q - ((⌊q⌋ : ℤ) : ℚ) = 1/2 := le_antisymm (not_lt.mp h2) (not_lt.mp h1)
    have h4 : ((⌊q⌋ : ℤ) : ℚ) < (n : ℚ) := by
      by_contra hc
      push_neg at hc
      have : (n : ℚ) = ((⌊q⌋ : ℤ) : ℚ) := le_antisymm hc (by exact_mod_cast hf)
      rw [this] at h
      linarith
    have h5 : ⌊q⌋ < n := by exact_mod_cast h4
    omega

lemma round2_nonneg (q : ℚ) (h : 0 ≤ q) : 0 ≤ round2 q := by
  have h1 := round_half_even_nonneg (q * 100) (by positivity)
  have h2 : (0 : ℚ) ≤ ((round_half_even (q * 100) : ℤ) : ℚ) := by exact_mod_cast h1
  unfold round2
  linarith

lemma round2_le_100 (q : ℚ) (h : q ≤ 100) : round2 q ≤ 100 := by
  have h1 : q * 100 ≤ ((10000 : ℤ) : ℚ) := by push_cast; linarith
  have h2 := round_half_even_le (q * 100) 10000 h1
  have h3 : ((round_half_even (q * 100) : ℤ) : ℚ) ≤ 10000 := by exact_mod_cast h2
  unfold round2
  linarith

lemma gc_counts_aux (seqR : List Char) : ∀ a b : Nat,
    (seqR.map Char.toUpper).foldl gcStep (a, b) =
      (a + countGC seqR, b + countCanonical seqR) := by
  induction seqR with
  | nil => intro a b; simp [countGC, countCanonical]
  | cons c rest ih =>
    intro a b
    have hstep : gcStep (a, b) c.toUpper =
        if c.toUpper = ('G') ∨ c.toUpper = ('C') then (a + 1, b + 1)
        else if c.toUpper = ('A') ∨ c.toUpper = ('T') then (a, b + 1) else (a, b) := rfl
    simp only [List.map_cons, List.foldl_cons, hstep, countGC, countCanonical]
    rcases Decidable.em (c.toUpper = ('G') ∨ c.toUpper = ('C')) with h1 | h1
    · have h2 : c.toUpper = ('A') ∨ c.toUpper = ('T') ∨ c.toUpper = ('G') ∨ c.toUpper = ('C') :=
        Or.inr (Or.inr h1)
      simp only [if_pos h1, if_pos h2, ih, Prod.mk.injEq]
      exact ⟨by omega, by omega⟩
    · rcases Decidable.em (c.toUpper = ('A') ∨ c.toUpper = ('T')) with h2 | h2
      · have h3 : c.toUpper = ('A') ∨ c.toUpper = ('T') ∨ c.toUpper = ('G') ∨ c.toUpper = ('C') := by
          tauto
        simp only [if_neg h1, if_pos h2, if_pos h3, ih, Prod.mk.injEq]
        exact ⟨by omega, by omega⟩
      · have h3 : ¬(c.toUpper = ('A') ∨ c.toUpper = ('T') ∨ c.toUpper = ('G') ∨
            c.toUpper = ('C')) := by tauto
        simp only [if_neg h1, if_neg h2, if_neg h3, ih, Prod.mk.injEq]
        exact ⟨by omega, by omega⟩

lemma gc_counts_eq (seqR : List Char) :
    gc_counts seqR = (countGC seqR, countCanonical seqR) := by
  have h := gc_counts_aux seqR 0 0
  simpa [gc_counts] using h

lemma countGC_le_countCanonical (seqR : List Char) : countGC seqR ≤ countCanonical seqR := by
  induction seqR with
  | nil => simp [countGC, countCanonical]
  | cons c rest ih =>
    simp only [countGC, countCanonical]
    split_ifs with h1 h2
    · omega
    · exact absurd (Or.inr (Or.inr h1)) h2
    · omega
    · omega

lemma countCanonical_le_length (seqR : List Char) : countCanonical seqR ≤ seqR.length := by
  induction seqR with
  | nil => simp [countCanonical]
  | cons c rest ih =>
    simp only [countCanonical, List.length_cons]
    split_ifs <;> omega

lemma ratio_nonneg (g d : Nat) : 0 ≤ ((g : ℚ) / (d : ℚ)) * 100 := by positivity

lemma ratio_le_100 (g d : Nat) (hd : 0 < d) (hgd : g ≤ d) : ((g : ℚ) / (d : ℚ)) * 100 ≤ 100 := by
  have hd' : (0 : ℚ) < (d : ℚ) := by exact_mod_cast hd
  have hgd' : (g : ℚ) ≤ (d : ℚ) := by exact_mod_cast hgd
  have h1 : (g : ℚ) / (d : ℚ) ≤ 1 := by
    rw [div_le_one hd']
    exact hgd'
  linarith

lemma gcRaw_bounds (seqR : List Char) : 0 ≤ gcRaw seqR ∧ gcRaw seqR ≤ 100 := by
  unfold gcRaw
  split_ifs with h
  · norm_num
  · rw [gc_counts_eq]
    have hle : countGC seqR ≤ seqR.length :=
      le_trans (countGC_le_countCanonical seqR) (countCanonical_le_length seqR)
    exact ⟨round2_nonneg _ (ratio_nonneg _ _),
      round2_le_100 _ (ratio_le_100 _ _ (by omega) hle)⟩

lemma gcCanonicalVal_bounds (seqR : List Char) :
    0 ≤ gcCanonicalVal seqR ∧ gcCanonicalVal seqR ≤ 100 := by
  unfold gcCanonicalVal
  split_ifs with h
  · norm_num
  · rw [gc_counts_eq] at h ⊢
    have hle : countGC seqR ≤ countCanonical seqR := countGC_le_countCanonical seqR
    exact ⟨round2_nonneg _ (ratio_nonneg _ _),
      round2_le_100 _ (ratio_le_100 _ _ (by simpa using Nat.pos_of_ne_zero h) hle)⟩

/-! ## C1 -/

/-- C1: for every residue sequence (case-insensitively) and mode among raw
and canonical, `calculate_gc_content` returns round((g/d)*100, 2) where g is
the G/C count after case-normalisation and d is the sequence length in raw
mode and the A/T/G/C count in canonical mode, and returns exactly 0 when
d = 0, never dividing by zero. -/
theorem C1_calculate_gc_content (seqR : List Char) (mode : String)
    (hmode : mode = rawMode ∨ mode = canonicalMode) :
    calculate_gc_content seqR mode =
      .ok (if (if mode = rawMode then seqR.length else countCanonical seqR) = 0 then 0
           else round2 (((countGC seqR : ℚ) /
             (((if mode = rawMode then seqR.length else countCanonical seqR) : Nat) : ℚ)) * 100)) := by
  rcases hmode with h | h <;> subst h <;>
    simp [calculate_gc_content, gc_counts_eq, rawMode, canonicalMode] <;>
    split_ifs <;> rfl

/-- Witness for C1 at a concrete sequence and mode. -/
theorem C1_calculate_gc_content_witness :
    calculate_gc_content (("ACGT").data) rawMode =
      .ok (if (if rawMode = rawMode then (("ACGT").data).length
               else countCanonical (("ACGT").data)) = 0 then 0
           else round2 (((countGC (("ACGT").data) : ℚ) /
             (((if rawMode = rawMode then (("ACGT").data).length
                else countCanonical (("ACGT").data)) : Nat) : ℚ)) * 100)) :=
  C1_calculate_gc_content (("ACGT").data) rawMode (Or.inl rfl)

/-! ## C7 -/

/-- C7: for every residue sequence and valid mode the GC content lies in
[0, 100], and it is exactly 0 when the effective denominator is 0: the empty
sequence in raw mode, or no A/T/G/C bases in canonical mode. -/
theorem C7_gc_content_bounds (seqR : List Char) (mode : String)
    (hmode : mode = rawMode ∨ mode = canonicalMode) :
    calculate_gc_content seqR mode = .ok (gcValue seqR mode)
    ∧ 0 ≤ gcValue seqR mode ∧ gcValue seqR mode ≤ 100
    ∧ (mode = rawMode → seqR = [] → gcValue seqR mode = 0)
    ∧ (mode = canonicalMode → countCanonical seqR = 0 → gcValue seqR mode = 0) := by
  have hraw : calculate_gc_content seqR rawMode = .ok (gcRaw seqR) := by
    simp only [calculate_gc_content, gcRaw, rawMode]
    split_ifs <;> simp_all
  have hcan : calculate_gc_content seqR canonicalMode = .ok (gcCanonicalVal seqR) := by
    simp only [calculate_gc_content, gcCanonicalVal, canonicalMode, rawMode]
    split_ifs <;> simp_all
  rcases hmode with h | h <;> subst h
  · refine ⟨by simpa [gcValue, rawMode] using hraw, ?_, ?_, ?_, ?_⟩
    · simpa [gcValue, rawMode] using (gcRaw_bounds seqR).1
    · simpa [gcValue, rawMode] using (gcRaw_bounds seqR).2
    · intro _ hempty
      subst hempty
      simp [gcValue, rawMode, gcRaw]
    · intro hcontra
      exact absurd hcontra (by simp [rawMode, canonicalMode])
  · have hne : canonicalMode ≠ rawMode := by simp [rawMode, canonicalMode]
    refine ⟨by simpa [gcValue, hne] using hcan, ?_, ?_, ?_, ?_⟩
    · simpa [gcValue, hne] using (gcCanonicalVal_bounds seqR).1
    · simpa [gcValue, hne] using (gcCanonicalVal_bounds seqR).2
    · intro hcontra
      exact absurd hcontra (by simp [rawMode, canonicalMode])
    · intro _ hzero
      simp [gcValue, hne, gcCanonicalVal, gc_counts_eq, hzero]

/-- Witness for C7 at a concrete sequence and mode. -/
theorem C7_gc_content_bounds_witness :
    calculate_gc_content (("ACGTNN").data) canonicalMode =
        .ok (gcValue (("ACGTNN").data) canonicalMode)
    ∧ 0 ≤ gcValue (("ACGTNN").data) canonicalMode
    ∧ gcValue (("ACGTNN").data) canonicalMode ≤ 100
    ∧ (canonicalMode = rawMode → (("ACGTNN").data) = [] →
        gcValue (("ACGTNN").data) canonicalMode = 0)
    ∧ (canonicalMode = canonicalMode → countCanonical (("ACGTNN").data) = 0 →
        gcValue (("ACGTNN").data) canonicalMode = 0) :=
  C7_gc_content_bounds (("ACGTNN").data) canonicalMode (Or.inr rfl)

/-! ## C6 -/

lemma stats_foldl (seqs : List (List Char)) : ∀ (a : Nat) (g : ℚ) (c : Nat),
    seqs.foldl statsStep (a, g, c) =
      (a + (seqs.map List.length).sum, g + (seqs.map gcRaw).sum, c + seqs.length) := by
  induction seqs with
  | nil => intro a g c; simp
  | cons s rest ih =>
    intro a g c
    simp only [List.foldl_cons, List.map_cons, List.sum_cons, List.length_cons, statsStep, ih,
      Prod.mk.injEq]
    exact ⟨by omega, by ring, by omega⟩

unseal Rat.add Rat.sub Rat.mul Rat.inv in
lemma C6_example_eval :
    get_sequence_stats [List.replicate 10 ('T'),
        List.replicate 10 ('G') ++ List.replicate 10 ('T'), List.replicate 30 ('G')] =
      ⟨3, 60, 20, 50⟩ := by decide

/-- C6: the aggregator returns the record count, the summed lengths, and the
two averages (total length over count, and the mean of the per-record GC
percentages) rounded to 2 decimals, both 0 when the count is 0; in
particular lengths 10, 20, 30 with GC percentages 0, 50, 100 give average
length 20 and average GC content 50. -/
theorem C6_get_sequence_stats :
    (∀ seqs : List (List Char),
      get_sequence_stats seqs =
        ⟨seqs.length, (seqs.map List.length).sum,
         if seqs.length = 0 then 0
         else round2 ((((seqs.map List.length).sum : Nat) : ℚ) / (seqs.length : ℚ)),
         if seqs.length = 0 then 0
         else round2 ((seqs.map gcRaw).sum / (seqs.length : ℚ))⟩)
    ∧ get_sequence_stats [List.replicate 10 ('T'),
        List.replicate 10 ('G') ++ List.replicate 10 ('T'), List.replicate 30 ('G')] =
        ⟨3, 60, 20, 50⟩ := by
  constructor
  · intro seqs
    unfold get_sequence_stats
    rw [stats_foldl]
    rcases Nat.eq_zero_or_pos seqs.length with h | h
    · simp [h]
    · simp [h, Nat.pos_iff_ne_zero.mp h]
  · exact C6_example_eval

/-! ## C2 -/

lemma isSuffixOf_iff_suffix (l₁ l₂ : List Char) : l₁.isSuffixOf l₂ = true ↔ l₁ <:+ l₂ := by
  rw [List.isSuffixOf, List.isPrefixOf_iff_prefix, List.reverse_prefix]

lemma formatOfName_spec (n : List Char) :
    (formatOfName n = .ok Format.fasta ↔ (faExt <:+ n ∨ fastaExt <:+ n ∨ fnaExt <:+ n))
    ∧ (formatOfName n = .ok Format.fastq ↔
        (¬(faExt <:+ n ∨ fastaExt <:+ n ∨ fnaExt <:+ n) ∧ (fqExt <:+ n ∨ fastqExt <:+ n)))
    ∧ (formatOfName n = .ok Format.genbank ↔
        (¬(faExt <:+ n ∨ fastaExt <:+ n ∨ fnaExt <:+ n) ∧ ¬(fqExt <:+ n ∨ fastqExt <:+ n)
         ∧ (gbExt <:+ n ∨ gbkExt <:+ n ∨ genbankExt <:+ n)))
    ∧ (formatOfName n = .ok Format.embl ↔
        (¬(faExt <:+ n ∨ fastaExt <:+ n ∨ fnaExt <:+ n) ∧ ¬(fqExt <:+ n ∨ fastqExt <:+ n)
         ∧ ¬(gbExt <:+ n ∨ gbkExt <:+ n ∨ genbankExt <:+ n) ∧ emblExt <:+ n))
    ∧ (formatOfName n = .error Err.unsupportedFormat ↔
        (¬(faExt <:+ n ∨ fastaExt <:+ n ∨ fnaExt <:+ n) ∧ ¬(fqExt <:+ n ∨ fastqExt <:+ n)
         ∧ ¬(gbExt <:+ n ∨ gbkExt <:+ n ∨ genbankExt <:+ n) ∧ ¬(emblExt <:+ n))) := by
  unfold formatOfName
  split_ifs with h1 h2 h3 h4 <;>
    simp_all [Bool.or_eq_true, isSuffixOf_iff_suffix] <;> tauto

/-- C2 counterexample: on the filename x.fa.bz2.gz the code strips both the
gz and the bz2 suffixes and reports fasta, while the claim's
single-compression-suffix stripping leaves x.fa.bz2, which maps to no
format and must fail with UnsupportedFormat. -/
theorem C2_detect_counterexample :
    detect_file_format (("x.fa.bz2.gz").data) = .ok Format.fasta
    ∧ detect_file_format_claim (("x.fa.bz2.gz").data) = .error Err.unsupportedFormat
    ∧ detect_compression (("x.fa.bz2.gz").data) = Compression.gzip := by
  exact ⟨by decide, by decide, by decide⟩

/-- C2 (amended): compression is detected by case-insensitive suffix match
(gz/gzip give gzip, bz2/bzip2 give bzip2, anything else none); format
detection runs through the compression suffixes gz, gzip, bz2, bzip2 in that
order on the lower-cased name, stripping every one that matches the
progressively stripped name (so several stacked compression suffixes can be
removed), and then maps the remaining suffix (fa/fasta/fna to fasta,
fq/fastq to fastq, gb/gbk/genbank to genbank, embl to embl), failing with
UnsupportedFormat when no format suffix matches; in particular
Sample.FASTA.GZ detects as fasta with gzip and notes.txt fails. -/
theorem C2_detection_amended (name : List Char) :
    (detect_compression name = Compression.gzip ↔
      (gzExt <:+ lowerStr name ∨ gzipExt <:+ lowerStr name))
    ∧ (detect_compression name = Compression.bzip2 ↔
      (¬(gzExt <:+ lowerStr name ∨ gzipExt <:+ lowerStr name)
       ∧ (bz2Ext <:+ lowerStr name ∨ bzip2Ext <:+ lowerStr name)))
    ∧ (detect_compression name = Compression.none ↔
      (¬(gzExt <:+ lowerStr name ∨ gzipExt <:+ lowerStr name)
       ∧ ¬(bz2Ext <:+ lowerStr name ∨ bzip2Ext <:+ lowerStr name)))
    ∧ stripCompression (lowerStr name) =
        stripExtOnce (stripExtOnce (stripExtOnce (stripExtOnce (lowerStr name) gzExt) gzipExt)
          bz2Ext) bzip2Ext
    ∧ (∀ ext rest, stripExtOnce rest ext =
        if ext <:+ rest then rest.take (rest.length - ext.length) else rest)
    ∧ detect_file_format name = formatOfName (stripCompression (lowerStr name))
    ∧ (detect_file_format name = .ok Format.fasta ↔
        (faExt <:+ stripCompression (lowerStr name)
         ∨ fastaExt <:+ stripCompression (lowerStr name)
         ∨ fnaExt <:+ stripCompression (lowerStr name)))
    ∧ (detect_file_format name = .error Err.unsupportedFormat ↔
        (¬(faExt <:+ stripCompression (lowerStr name)
           ∨ fastaExt <:+ stripCompression (lowerStr name)
           ∨ fnaExt <:+ stripCompression (lowerStr name))
         ∧ ¬(fqExt <:+ stripCompression (lowerStr name)
             ∨ fastqExt <:+ stripCompression (lowerStr name))
         ∧ ¬(gbExt <:+ stripCompression (lowerStr name)
             ∨ gbkExt <:+ stripCompression (lowerStr name)
             ∨ genbankExt <:+ stripCompression (lowerStr name))
         ∧ ¬(emblExt <:+ stripCompression (lowerStr name))))
    ∧ detect_file_format (("Sample.FASTA.GZ").data) = .ok Format.fasta
    ∧ detect_compression (("Sample.FASTA.GZ").data) = Compression.gzip
    ∧ detect_file_format (("notes.txt").data) = .error Err.unsupportedFormat := by
  refine ⟨?_, ?_, ?_, by rfl, ?_, by rfl, (formatOfName_spec _).1,
    (formatOfName_spec _).2.2.2.2, by decide, by decide, by decide⟩
  · simp only [detect_compression]
    split_ifs with h1 h2 <;> simp_all [Bool.or_eq_true, isSuffixOf_iff_suffix]
  · simp only [detect_compression]
    split_ifs with h1 h2 <;> simp_all [Bool.or_eq_true, isSuffixOf_iff_suffix]
  · simp only [detect_compression]
    split_ifs with h1 h2 <;> simp_all [Bool.or_eq_true, isSuffixOf_iff_suffix]
  · intro ext rest
    unfold stripExtOnce
    split_ifs with h1 h2 <;> simp_all [isSuffixOf_iff_suffix]

/-! ## C10 -/

lemma mkFastaInfo_seq (r : SeqRecord) : (mkFastaInfo r).Sequence = r.seqR := rfl

lemma mkFastaInfo_first (r : SeqRecord) :
    (mkFastaInfo r).First_base = (r.seqR.head?.elim [] fun c => [c]) := by
  cases hs : r.seqR with
  | nil => simp [mkFastaInfo, hs]
  | cons c t => simp [mkFastaInfo, hs]

lemma mkFastaInfo_last (r : SeqRecord) :
    (mkFastaInfo r).Last_base = (r.seqR.getLast?.elim [] fun c => [c]) := by
  rcases Decidable.em (r.seqR = []) with h | h
  · simp [mkFastaInfo, h]
  · have hpos : 0 < r.seqR.length := List.length_pos.mpr h
    have h1 : (mkFastaInfo r).Last_base = [r.seqR.get ⟨r.seqR.length - 1, by omega⟩] := by
      simp [mkFastaInfo, hpos]
    rw [h1, List.getLast?_eq_getLast_of_ne_nil h]
    have h2 : r.seqR.getLast h = r.seqR.get ⟨r.seqR.length - 1, by omega⟩ := by
      rw [List.getLast_eq_getElem]
      simp
    rw [h2]
    simp [Option.elim]

/-- C10: on the FASTA/GenBank/EMBL path every record produces one entry, the
First_base and Last_base fields are the first and last residue character of
the sequence (as one-character strings), both the empty string when the
sequence is empty, and a length-0 record never causes a failure. -/
theorem C10_first_last_base (recs : List SeqRecord) :
    (process_fasta_stream recs).length = recs.length
    ∧ ∀ i ∈ process_fasta_stream recs,
        i.First_base = (i.Sequence.head?.elim [] fun c => [c])
        ∧ i.Last_base = (i.Sequence.getLast?.elim [] fun c => [c])
        ∧ (i.Sequence = [] → i.First_base = [] ∧ i.Last_base = []) := by
  refine ⟨by simp [process_fasta_stream], ?_⟩
  intro i hi
  rw [process_fasta_stream, List.mem_map] at hi
  obtain ⟨r, _, rfl⟩ := hi
  rw [mkFastaInfo_seq]
  refine ⟨mkFastaInfo_first r, mkFastaInfo_last r, ?_⟩
  intro hempty
  rw [mkFastaInfo_first r, mkFastaInfo_last r, hempty]
  simp

/-- Witness for C10 at a concrete record list with one empty-sequence record
and one three-base record. -/
theorem C10_first_last_base_witness :
    (mkFastaInfo ⟨("r2").data, [], ("GAT").data⟩).First_base =
        (((mkFastaInfo ⟨("r2").data, [], ("GAT").data⟩).Sequence.head?).elim [] fun c => [c])
    ∧ (mkFastaInfo ⟨("r2").data, [], ("GAT").data⟩).Last_base =
        (((mkFastaInfo ⟨("r2").data, [], ("GAT").data⟩).Sequence.getLast?).elim [] fun c => [c])
    ∧ ((mkFastaInfo ⟨("r2").data, [], ("GAT").data⟩).Sequence = [] →
        (mkFastaInfo ⟨("r2").data, [], ("GAT").data⟩).First_base = []
        ∧ (mkFastaInfo ⟨("r2").data, [], ("GAT").data⟩).Last_base = []) :=
  (C10_first_last_base [⟨[], [], []⟩, ⟨("r2").data, [], ("GAT").data⟩]).2
    (mkFastaInfo ⟨("r2").data, [], ("GAT").data⟩)
    (by simp [process_fasta_stream])

/-! ## C3 and C8: the FASTQ record loop -/

/-- Characterisation of a successful run of the record loop: the output is
exactly the kept records, in order, where a record is kept when the wanted
set is empty or contains its identifier. -/
lemma process_fastq_records_ok (triples : List (List Char × List Char × List Char))
    (wanted : List (List Char)) (out : List FastqInfo)
    (h : process_fastq_records triples wanted = .ok out) :
    out = (triples.filter
        (fun t => wanted.isEmpty || decide (firstTokD t.1 ∈ wanted))).map
      (fun t => mkFastqInfo t.1 t.2.1 t.2.2 (firstTokD t.1)) := by
  induction triples generalizing out with
  | nil =>
    simp only [process_fastq_records] at h
    cases h
    simp
  | cons t rest ih =>
    obtain ⟨title, seqR, qual⟩ := t
    cases hft : firstToken title with
    | none =>
      simp only [process_fastq_records, hft] at h
      exact (Except.noConfusion h)
    | some rid =>
      simp only [process_fastq_records, hft] at h
      have hfd : firstTokD (title, seqR, qual).1 = rid := by
        simp [firstTokD, hft]
      by_cases hskip : wanted ≠ [] ∧ rid ∉ wanted
      · rw [if_pos hskip] at h
        have hkeep : (wanted.isEmpty || decide (firstTokD (title, seqR, qual).1 ∈ wanted)) = false := by
          simp [hfd, List.isEmpty_iff, hskip.1, hskip.2]
        rw [List.filter_cons, hkeep]
        exact ih out h
      · rw [if_neg hskip] at h
        cases hrec : process_fastq_records rest wanted with
        | error e =>
          simp only [hrec] at h
          exact (Except.noConfusion h)
        | ok out' =>
          simp only [hrec] at h
          cases h
          have hkeep : (wanted.isEmpty || decide (firstTokD (title, seqR, qual).1 ∈ wanted)) = true := by
            push_neg at hskip
            rcases Decidable.em (wanted = []) with hw | hw
            · simp [hw]
            · simp [hfd, hskip hw]
          rw [List.filter_cons, hkeep]
          simp only [List.map_cons]
          rw [ih out' hrec]
          simp [hfd]

/-- C3: with an absent or empty wanted-ID set every parsed record is kept;
with a non-empty set exactly the records whose identifier (first
whitespace-delimited token of the title) is in the set appear, skipped
records contributing nothing; and the wanted-ID set is built by splitting
the filter string on commas and trimming whitespace, the empty string
meaning no filter. -/
theorem C3_fastq_filtering (triples : List (List Char × List Char × List Char))
    (wanted : List (List Char)) (out : List FastqInfo)
    (h : process_fastq_records triples wanted = .ok out) :
    (out = (triples.filter
        (fun t => wanted.isEmpty || decide (firstTokD t.1 ∈ wanted))).map
      (fun t => mkFastqInfo t.1 t.2.1 t.2.2 (firstTokD t.1)))
    ∧ (wanted = [] →
        out = triples.map (fun t => mkFastqInfo t.1 t.2.1 t.2.2 (firstTokD t.1)))
    ∧ parse_filter_ids Option.none = Option.none
    ∧ parse_filter_ids (some []) = Option.none
    ∧ (∀ s : List Char, s ≠ [] →
        parse_filter_ids (some s) = some (((splitOnComma s).map trimChars).dedup)) := by
  have hchar := process_fastq_records_ok triples wanted out h
  refine ⟨hchar, ?_, rfl, rfl, ?_⟩
  · intro hw
    subst hw
    simpa using hchar
  · intro s hs
    simp [parse_filter_ids, List.isEmpty_iff, hs]

unseal Rat.add Rat.sub Rat.mul Rat.inv in
/-- Witness for C3 at a concrete stream of two records filtered to one. -/
theorem C3_fastq_filtering_witness :
    ([mkFastqInfo (("id2").data) (("GG").data) (("!!").data) (("id2").data)] =
      ([((("id1 d").data : List Char), ((("AC").data : List Char), (("!!").data : List Char))),
        ((("id2").data : List Char), ((("GG").data : List Char), (("!!").data : List Char)))].filter
        (fun t => [(("id2").data : List Char)].isEmpty
          || decide (firstTokD t.1 ∈ [(("id2").data : List Char)]))).map
      (fun t => mkFastqInfo t.1 t.2.1 t.2.2 (firstTokD t.1)))
    ∧ ([(("id2").data : List Char)] = [] →
        [mkFastqInfo (("id2").data) (("GG").data) (("!!").data) (("id2").data)] =
        [((("id1 d").data : List Char), ((("AC").data : List Char), (("!!").data : List Char))),
         ((("id2").data : List Char), ((("GG").data : List Char), (("!!").data : List Char)))].map
          (fun t => mkFastqInfo t.1 t.2.1 t.2.2 (firstTokD t.1)))
    ∧ parse_filter_ids Option.none = Option.none
    ∧ parse_filter_ids (some []) = Option.none
    ∧ (∀ s : List Char, s ≠ [] →
        parse_filter_ids (some s) = some (((splitOnComma s).map trimChars).dedup)) :=
  C3_fastq_filtering
    [((("id1 d").data : List Char), ((("AC").data : List Char), (("!!").data : List Char))),
     ((("id2").data : List Char), ((("GG").data : List Char), (("!!").data : List Char)))]
    [(("id2").data : List Char)]
    [mkFastqInfo (("id2").data) (("GG").data) (("!!").data) (("id2").data)]
    (by decide)

lemma foldl_qual_sum (qual : List Char) : ∀ a : ℤ,
    ((qual.foldl (fun acc c => acc + ((c.toNat : ℤ) - 33)) a : ℤ) : ℚ)
      = (a : ℚ) + (qual.map fun c => ((c.toNat : ℚ) - 33)).sum := by
  induction qual with
  | nil => intro a; simp
  | cons c rest ih =>
    intro a
    simp only [List.foldl_cons, List.map_cons, List.sum_cons, ih]
    push_cast
    ring

/-- C8: every retained FASTQ record reports as average quality the
arithmetic mean over the quality characters of (code point minus 33), and 0
when the quality string is empty. -/
theorem C8_avg_quality (triples : List (List Char × List Char × List Char))
    (wanted : List (List Char)) (out : List FastqInfo)
    (h : process_fastq_records triples wanted = .ok out) :
    ∀ r ∈ out, r.Avg_quality =
      if r.Quality = [] then 0
      else (r.Quality.map fun c => ((c.toNat : ℚ) - 33)).sum / (r.Quality.length : ℚ) := by
  intro r hr
  rw [process_fastq_records_ok triples wanted out h, List.mem_map] at hr
  obtain ⟨t, _, rfl⟩ := hr
  show (mkFastqInfo t.1 t.2.1 t.2.2 (firstTokD t.1)).Avg_quality = _
  have hq : (mkFastqInfo t.1 t.2.1 t.2.2 (firstTokD t.1)).Quality = t.2.2 := rfl
  rw [hq]
  show (if t.2.2 = [] then (0 : ℚ)
        else ((t.2.2.foldl (fun acc c => acc + ((c.toNat : ℤ) - 33)) 0 : ℤ) : ℚ) /
          (t.2.2.length : ℚ)) = _
  rcases Decidable.em (t.2.2 = []) with hx | hx
  · simp [hx]
  · rw [if_neg hx, if_neg hx, foldl_qual_sum]
    simp

unseal Rat.add Rat.sub Rat.mul Rat.inv in
/-- Witness for C8 at a concrete record with quality string of code points
33 and 43. -/
theorem C8_avg_quality_witness :
    (mkFastqInfo (("id1").data) (("AC").data) (("!+").data) (("id1").data)).Avg_quality =
      if (mkFastqInfo (("id1").data) (("AC").data) (("!+").data) (("id1").data)).Quality = []
      then 0
      else ((mkFastqInfo (("id1").data) (("AC").data) (("!+").data)
              (("id1").data)).Quality.map fun c => ((c.toNat : ℚ) - 33)).sum /
        ((mkFastqInfo (("id1").data) (("AC").data) (("!+").data)
          (("id1").data)).Quality.length : ℚ) :=
  C8_avg_quality [((("id1").data : List Char), ((("AC").data : List Char), (("!+").data : List Char)))]
    [] [mkFastqInfo (("id1").data) (("AC").data) (("!+").data) (("id1").data)]
    (by decide)
    (mkFastqInfo (("id1").data) (("AC").data) (("!+").data) (("id1").data))
    (List.mem_singleton.mpr rfl)

/-! ## C5 -/

lemma fastqIter_lengths (ls : List (List Char)) :
    ∀ out, fastqIter ls = .ok out → ∀ t ∈ out, t.2.1.length = t.2.2.length := by
  induction ls using fastqIter.induct with
  | case1 =>
    intro out hok t ht
    simp only [fastqIter] at hok
    cases hok
    simp at ht
  | case2 hl sl pl ql rest h1 =>
    intro out hok t ht
    simp only [fastqIter, if_pos h1] at hok
    exact (Except.noConfusion hok)
  | case3 hl sl pl ql rest h1 h2 =>
    intro out hok t ht
    simp only [fastqIter, if_neg h1, if_pos h2] at hok
    exact (Except.noConfusion hok)
  | case4 hl sl pl ql rest h1 h2 h3 =>
    intro out hok t ht
    simp only [fastqIter, if_neg h1, if_neg h2, if_pos h3] at hok
    exact (Except.noConfusion hok)
  | case5 hl sl pl ql rest h1 h2 h3 e herr ih =>
    intro out hok t ht
    simp only [fastqIter, if_neg h1, if_neg h2, if_neg h3, herr] at hok
    exact (Except.noConfusion hok)
  | case6 hl sl pl ql rest h1 h2 h3 out' hrec ih =>
    intro out hok t ht
    simp only [fastqIter, if_neg h1, if_neg h2, if_neg h3, hrec] at hok
    cases hok
    rcases List.mem_cons.mp ht with hh | hh
    · subst hh
      simpa using not_not.mp h3
    · exact ih out' hrec t hh
  | case7 t0 hn1 hn2 =>
    intro out hok t ht
    rcases t0 with _ | ⟨a, _ | ⟨b, _ | ⟨c, _ | ⟨d, r⟩⟩⟩⟩
    · exact (hn1 rfl).elim
    · rw [show fastqIter [a] = Except.error Err.malformedFastqRecord from rfl] at hok
      exact (Except.noConfusion hok)
    · rw [show fastqIter [a, b] = Except.error Err.malformedFastqRecord from rfl] at hok
      exact (Except.noConfusion hok)
    · rw [show fastqIter [a, b, c] = Except.error Err.malformedFastqRecord from rfl] at hok
      exact (Except.noConfusion hok)
    · exact (hn2 a b c d r rfl).elim

/-- C5: the FASTQ parser fails with a malformed-record error on an
incomplete 4-line group, on a separator line not starting with the plus
sign, and on a sequence/quality length mismatch; consequently every
produced record has a quality string of the same length as its sequence. -/
theorem C5_malformed_fastq :
    (∀ (hl sl pl ql : List Char) (rest : List (List Char)), pl.head? ≠ some ('+') →
      fastqIter (hl :: sl :: pl :: ql :: rest) = .error Err.malformedFastqRecord)
    ∧ (∀ (hl sl pl ql : List Char) (rest : List (List Char)), sl.length ≠ ql.length →
      fastqIter (hl :: sl :: pl :: ql :: rest) = .error Err.malformedFastqRecord)
    ∧ (∀ ls : List (List Char), ls ≠ [] → ls.length < 4 →
      fastqIter ls = .error Err.malformedFastqRecord)
    ∧ (∀ (ls : List (List Char)) (out : List (List Char × List Char × List Char)),
      fastqIter ls = .ok out → ∀ t ∈ out, t.2.1.length = t.2.2.length) := by
  refine ⟨?_, ?_, ?_, fastqIter_lengths⟩
  · intro hl sl pl ql rest hp
    simp only [fastqIter]
    split_ifs <;> rfl
  · intro hl sl pl ql rest hlen
    simp only [fastqIter]
    split_ifs <;> rfl
  · intro ls hne hlen
    rcases ls with _ | ⟨a, _ | ⟨b, _ | ⟨c, _ | ⟨d, r⟩⟩⟩⟩
    · exact absurd rfl hne
    · rfl
    · rfl
    · rfl
    · simp only [List.length_cons] at hlen
      omega

/-- Witness for C5 at concrete malformed and well-formed inputs. -/
theorem C5_malformed_fastq_witness :
    fastqIter [("@a").data, ("ACGT").data, ("x").data, ("!!!!").data] =
        .error Err.malformedFastqRecord
    ∧ fastqIter [("@a").data, ("ACGT").data, ("+").data, ("!!!").data] =
        .error Err.malformedFastqRecord
    ∧ fastqIter [("@a").data, ("ACGT").data, ("+").data] =
        .error Err.malformedFastqRecord
    ∧ ∀ t ∈ [((("a a").data : List Char),
        ((("ACGT").data : List Char), (("!#!#").data : List Char)))],
        t.2.1.length = t.2.2.length := by
  refine ⟨?_, ?_, ?_, ?_⟩
  · exact C5_malformed_fastq.1 (("@a").data) (("ACGT").data) (("x").data) (("!!!!").data) []
      (by decide)
  · exact C5_malformed_fastq.2.1 (("@a").data) (("ACGT").data) (("+").data) (("!!!").data) []
      (by decide)
  · exact C5_malformed_fastq.2.2.1 [("@a").data, ("ACGT").data, ("+").data]
      (by decide) (by decide)
  · exact C5_malformed_fastq.2.2.2 [("@a a").data, ("ACGT").data, ("+").data, ("!#!#").data]
      [((("a a").data : List Char), ((("ACGT").data : List Char), (("!#!#").data : List Char)))]
      (by decide)

/-! ## C4 -/

/-- C4: for every filename whose format detection succeeds (under any
compression tag), processing an empty uploaded byte content yields zero
total sequences and zero total bases without error, given the spec-pinned
collaborator behaviour on empty input (spec sections 4.2, 6 and 8: empty
input decompresses and decodes to the empty text, and the record source
yields no records from an empty stream). -/
theorem C4_empty_upload (gz bz : List Nat → Except Err (List Nat))
    (decode : List Nat → Except Err (List Char))
    (src_parse : Format → List Char → Except Err (List SeqRecord))
    (filename : List Char) (fmt : Format)
    (hfmt : detect_file_format filename = .ok fmt)
    (hgz : gz [] = .ok []) (hbz : bz [] = .ok []) (hdec : decode [] = .ok [])
    (hsrc : ∀ f, src_parse f [] = .ok []) :
    process_sequences_universal gz bz decode src_parse filename [] =
      .ok ⟨fmt, detect_compression filename, 0, 0⟩ := by
  have htext : get_text_handle gz bz decode [] (detect_compression filename) = .ok [] := by
    cases detect_compression filename with
    | gzip => simp only [get_text_handle, hgz, hdec]
    | bzip2 => simp only [get_text_handle, hbz, hdec]
    | none => simp only [get_text_handle, hdec]
  have hfq : process_fastq_stream [] Option.none = .ok [] := rfl
  cases fmt <;>
    simp only [process_sequences_universal, hfmt, htext, hfq, hsrc, process_fasta_stream,
      List.map_nil, List.length_nil, List.sum_nil]

/-- Witness for C4 at a concrete FASTA filename and concrete collaborators. -/
theorem C4_empty_upload_witness :
    process_sequences_universal (fun _ => Except.ok []) (fun _ => Except.ok [])
      (fun _ => Except.ok []) (fun _ _ => Except.ok []) (("x.fa").data) [] =
      .ok ⟨Format.fasta, detect_compression (("x.fa").data), 0, 0⟩ :=
  C4_empty_upload (fun _ => Except.ok []) (fun _ => Except.ok []) (fun _ => Except.ok [])
    (fun _ _ => Except.ok []) (("x.fa").data) Format.fasta (by decide) rfl rfl rfl
    (fun _ => rfl)

/-! ## C9 -/

lemma splitOnChar_ne_nil (sep : Char) (s : List Char) : splitOnChar sep s ≠ [] := by
  cases s with
  | nil => exact fun h => List.noConfusion h
  | cons c rest =>
    simp only [splitOnChar]
    split_ifs
    · exact List.cons_ne_nil _ _
    · cases splitOnChar sep rest <;> exact List.cons_ne_nil _ _

/-- C9: in the FASTQ-filter response, filter_count is the number of
distinct trimmed comma-separated tokens of the filter string (not the
number of records returned), filtered is true exactly when that set is
non-empty, and an absent or empty filter string gives filter_count 0 and
filtered false; a two-token filter over an empty stream reports
filter_count 2 with no sequences. -/
theorem C9_filter_response (fids : Option (List Char))
    (triples : List (List Char × List Char × List Char)) (resp : FilterResponse)
    (h : filter_fastq_core fids triples = .ok resp) :
    resp.filter_count = distinctTokens fids
    ∧ (resp.filtered = true ↔ distinctTokens fids ≠ 0)
    ∧ ((fids = Option.none ∨ fids = some []) →
        resp.filter_count = 0 ∧ resp.filtered = false)
    ∧ filter_fastq_core (some (("a,b").data)) [] =
        .ok ⟨0, true, 2, []⟩ := by
  cases hrec : process_fastq_records triples ((parse_filter_ids fids).getD []) with
  | error e =>
    simp only [filter_fastq_core, hrec] at h
    exact (Except.noConfusion h)
  | ok out =>
    simp only [filter_fastq_core, hrec] at h
    cases h
    have hkey : ∀ s : List Char, s ≠ [] → ((splitOnComma s).map trimChars).dedup ≠ [] := by
      intro s _ hd
      simp only [List.dedup_eq_nil, List.map_eq_nil_iff] at hd
      exact splitOnChar_ne_nil (',') s hd
    refine ⟨?_, ?_, ?_, by decide⟩
    · rcases fids with _ | s
      · simp [parse_filter_ids, pyTruthy, distinctTokens]
      · rcases Decidable.em (s = []) with hs | hs
        · subst hs
          simp [parse_filter_ids, pyTruthy, distinctTokens]
        · have hne := hkey s hs
          simp [parse_filter_ids, pyTruthy, distinctTokens, hs, hne, List.isEmpty_iff]
    · rcases fids with _ | s
      · simp [parse_filter_ids, pyTruthy, distinctTokens]
      · rcases Decidable.em (s = []) with hs | hs
        · subst hs
          simp [parse_filter_ids, pyTruthy, distinctTokens]
        · have hne := hkey s hs
          simp [parse_filter_ids, pyTruthy, distinctTokens, hs, hne, List.isEmpty_iff,
            List.length_eq_zero]
    · intro hcase
      rcases hcase with hc | hc <;> subst hc <;>
        simp [parse_filter_ids, pyTruthy]

/-- Witness for C9 at a concrete two-token filter string over an empty
stream. -/
theorem C9_filter_response_witness :
    (⟨0, true, 2, []⟩ : FilterResponse).filter_count = distinctTokens (some (("a, b").data))
    ∧ ((⟨0, true, 2, []⟩ : FilterResponse).filtered = true ↔
        distinctTokens (some (("a, b").data)) ≠ 0)
    ∧ ((some (("a, b").data) = Option.none ∨ some (("a, b").data) = some []) →
        (⟨0, true, 2, []⟩ : FilterResponse).filter_count = 0
        ∧ (⟨0, true, 2, []⟩ : FilterResponse).filtered = false)
    ∧ filter_fastq_core (some (("a,b").data)) [] = .ok ⟨0, true, 2, []⟩ :=
  C9_filter_response (some (("a, b").data)) [] ⟨0, true, 2, []⟩ (by decide)

end BioApp
